import Mathlib

/-!
Shallow embedding of the `iterwrite` library (file `src/iterwrite/iterwriter.py`)
and proofs about its specified behaviour.

Strings are modelled by Lean `String`/`List Char`; Python `int` by `Int`/`Nat`;
Python dicts by insertion-ordered association lists; raised exceptions by an
explicit error type threaded through `Except`/`Option`.
-/

set_option autoImplicit false

namespace Iterwrite

/-! ### Decimal digit strings, modelling Python `str(int)` and `int(str)` -/

/-- Fuel-driven decimal digit expansion of a natural number (most significant
digit first).  `natDigitsF (n+1) n` agrees with Python `str(n)`. -/
def natDigitsF : Nat → Nat → List Char
  | 0, _ => []
  | fuel + 1, n =>
    if n < 10 then [Nat.digitChar n]
    else natDigitsF fuel (n / 10) ++ [Nat.digitChar (n % 10)]

/-- Decimal rendering of a natural number, as Python `str(n)`. -/
def natStr (n : Nat) : String := String.mk (natDigitsF (n + 1) n)

/-- Value of a list of decimal digit characters, as Python `int(s)` on an
all-digits string. -/
def digitsToNat (ds : List Char) : Nat :=
  ds.foldl (fun acc c => acc * 10 + (c.toNat - 48)) 0

theorem digitChar_isDigit {d : Nat} (h : d < 10) : (Nat.digitChar d).isDigit := by
  interval_cases d <;> decide

theorem digitChar_toNat {d : Nat} (h : d < 10) : (Nat.digitChar d).toNat - 48 = d := by
  interval_cases d <;> decide

theorem digitChar_ne_brace {d : Nat} (h : d < 10) :
    Nat.digitChar d ≠ '{' ∧ Nat.digitChar d ≠ '}' := by
  interval_cases d <;> decide

theorem digitsToNat_aux (ds : List Char) (a : Nat) :
    ds.foldl (fun acc c => acc * 10 + (c.toNat - 48)) a =
      a * 10 ^ ds.length + digitsToNat ds := by
  induction ds generalizing a with
  | nil => simp [digitsToNat]
  | cons c rest ih =>
    simp only [List.foldl_cons, digitsToNat, List.length_cons]
    rw [ih, ih (0 * 10 + (c.toNat - 48))]
    ring

theorem digitsToNat_append_singleton (ds : List Char) (c : Char) :
    digitsToNat (ds ++ [c]) = digitsToNat ds * 10 + (c.toNat - 48) := by
  simp [digitsToNat, List.foldl_append]

theorem natDigitsF_spec {fuel n : Nat} (h : n < fuel) :
    digitsToNat (natDigitsF fuel n) = n ∧
    natDigitsF fuel n ≠ [] ∧
    (∀ c ∈ natDigitsF fuel n, c.isDigit) ∧
    (∀ c ∈ natDigitsF fuel n, c ≠ '{' ∧ c ≠ '}') := by
  induction fuel generalizing n with
  | zero => omega
  | succ fuel ih =>
    by_cases hn : n < 10
    · refine ⟨?_, ?_, ?_, ?_⟩ <;> simp [natDigitsF, hn]
      · simpa [digitsToNat] using digitChar_toNat hn
      · exact digitChar_isDigit hn
      · exact digitChar_ne_brace hn
    · have hdivlt : n / 10 < n := Nat.div_lt_self (by omega) (by omega)
      have hfuel : n / 10 < fuel := by omega
      obtain ⟨ihv, _, ihd, ihb⟩ := ih hfuel
      have hmod : n % 10 < 10 := Nat.mod_lt _ (by omega)
      refine ⟨?_, ?_, ?_, ?_⟩
      · rw [natDigitsF]
        simp only [hn, if_false, digitsToNat_append_singleton, ihv,
          digitChar_toNat hmod]
        omega
      · simp [natDigitsF, hn]
      · intro c hc
        rw [natDigitsF] at hc
        simp only [hn, if_false, List.mem_append, List.mem_singleton] at hc
        rcases hc with hc | hc
        · exact ihd c hc
        · exact hc ▸ digitChar_isDigit hmod
      · intro c hc
        rw [natDigitsF] at hc
        simp only [hn, if_false, List.mem_append, List.mem_singleton] at hc
        rcases hc with hc | hc
        · exact ihb c hc
        · exact hc ▸ digitChar_ne_brace hmod

theorem digitsToNat_natDigits (n : Nat) :
    digitsToNat (natDigitsF (n + 1) n) = n :=
  (natDigitsF_spec (Nat.lt_succ_self n)).1

theorem natDigits_ne_nil (n : Nat) : natDigitsF (n + 1) n ≠ [] :=
  (natDigitsF_spec (Nat.lt_succ_self n)).2.1

theorem natDigits_isDigit (n : Nat) : ∀ c ∈ natDigitsF (n + 1) n, c.isDigit :=
  (natDigitsF_spec (Nat.lt_succ_self n)).2.2.1

theorem natDigits_ne_brace (n : Nat) :
    ∀ c ∈ natDigitsF (n + 1) n, c ≠ '{' ∧ c ≠ '}' :=
  (natDigitsF_spec (Nat.lt_succ_self n)).2.2.2

/-! ### Insertion-ordered dictionaries (Python `dict`) -/

/-- Python dict lookup `d[k]`, returning `none` for a `KeyError`. -/
def dget {α : Type} : List (String × α) → String → Option α
  | [], _ => none
  | (k', v) :: rest, k => if k' = k then some v else dget rest k

/-- Python dict assignment `d[k] = v`: updates in place when the key exists,
appends otherwise (insertion order preserved). -/
def dset {α : Type} : List (String × α) → String → α → List (String × α)
  | [], k, v => [(k, v)]
  | (k', v') :: rest, k, v =>
    if k' = k then (k', v) :: rest else (k', v') :: dset rest k v

theorem dget_dset_self {α : Type} (d : List (String × α)) (k : String) (v : α) :
    dget (dset d k v) k = some v := by
  induction d with
  | nil => simp [dget, dset]
  | cons p rest ih =>
    obtain ⟨k', v'⟩ := p
    by_cases h : k' = k <;> simp [dget, dset, h, ih]

theorem dget_dset_ne {α : Type} (d : List (String × α)) {k k' : String} (v : α)
    (h : k ≠ k') : dget (dset d k v) k' = dget d k' := by
  induction d with
  | nil => simp [dget, dset, h]
  | cons p rest ih =>
    obtain ⟨k0, v0⟩ := p
    by_cases h0 : k0 = k
    · subst h0
      simp [dget, dset, h]
    · simp only [dset, h0, if_false, dget]
      by_cases h1 : k0 = k' <;> simp [h1, ih]

theorem dget_dset_isSome {α : Type} (d : List (String × α)) (k k' : String) (v : α) :
    (dget (dset d k v) k').isSome = ((dget d k').isSome ∨ k = k') := by
  by_cases h : k = k'
  · subst h
    simp [dget_dset_self]
  · simp [dget_dset_ne d v h, h]

/-! ### Space padding: `"{:Nd}".format` style right alignment -/

/-- Right-align a string in a field of width `w`, filling with spaces on the
left (Python's default numeric alignment). -/
def padLeft (w : Nat) (s : String) : String :=
  String.mk (List.replicate (w - s.length) ' ') ++ s

theorem padLeft_length (w : Nat) (s : String) :
    (padLeft w s).length = max w s.length := by
  simp only [padLeft, String.length_append]
  have : (String.mk (List.replicate (w - s.length) ' ')).length = w - s.length := by
    show (List.replicate (w - s.length) ' ').length = w - s.length
    simp
  omega

/-! ### The pattern regex `\{([^{}]*)\}`

`re.findall` / `re.sub` over `PATTERN_REGEX` are modelled by a left-to-right
scan: a `'{'` opens a candidate match, non-brace characters extend it, a `'}'`
closes it (emitting the captured group), and a second `'{'` abandons the
previous candidate and starts a new one — exactly the leftmost-match retry
behaviour of the regex engine on this pattern. -/

/-- Scanner for `re.findall(PATTERN_REGEX, s)`: `cand = some acc` means a
candidate match is open with captured characters `acc` (in order). -/
def findallAux : List Char → Option (List Char) → List (List Char)
  | [], _ => []
  | c :: rest, none =>
    if c = '{' then findallAux rest (some []) else findallAux rest none
  | c :: rest, some acc =>
    if c = '}' then acc :: findallAux rest none
    else if c = '{' then findallAux rest (some [])
    else findallAux rest (some (acc ++ [c]))

/-- `re.findall(PATTERN_REGEX, s)`: the captured groups of all non-overlapping
matches of `\{([^{}]*)\}`, left to right. -/
def findall (s : List Char) : List (List Char) := findallAux s none

/-- Scanner for `re.sub(PATTERN_REGEX, "{}", s)`: `pend` holds the characters
of the currently open candidate (starting with its `'{'`). -/
def subAux : List Char → Option (List Char) → List Char
  | [], none => []
  | [], some pend => pend
  | c :: rest, none =>
    if c = '{' then subAux rest (some ['{']) else c :: subAux rest none
  | c :: rest, some pend =>
    if c = '}' then '{' :: '}' :: subAux rest none
    else if c = '{' then pend ++ subAux rest (some ['{'])
    else subAux rest (some (pend ++ [c]))

/-- `re.sub(PATTERN_REGEX, "{}", s)`: every match replaced by `"{}"`. -/
def subPattern (s : List Char) : List Char := subAux s none

/-! ### Errors raised by the library -/

/-- The exceptions the code can raise, by kind.  `missingFields` carries the
names listed in the message; `keyError` the offending dict key. -/
inductive ErrKind : Type
  | notString
  | noPattern
  | multiplePatterns
  | unsupportedType
  | precisionOnNonFloat
  | missingFields (names : List String)
  | unnamedFields
  | keyError (name : String)
  | indexError
  | formatError
  deriving DecidableEq, Repr

/-- The Python exception class each raised error belongs to. -/
inductive ExcClass : Type
  | valueError
  | notImplementedError
  | indexErrorClass
  | keyErrorClass
  deriving DecidableEq, Repr

/-- Which Python exception class each `ErrKind` is raised as in the source. -/
def errClass : ErrKind → ExcClass
  | .notString => .valueError
  | .noPattern => .valueError
  | .multiplePatterns => .notImplementedError
  | .unsupportedType => .notImplementedError
  | .precisionOnNonFloat => .valueError
  | .missingFields _ => .valueError
  | .unnamedFields => .notImplementedError
  | .keyError _ => .keyErrorClass
  | .indexError => .indexErrorClass
  | .formatError => .valueError

/-- Modelled from the spec: the documented error taxonomy of §7.  `IndexError`
and `KeyError` escapes are not part of it. -/
def inTaxonomy : ErrKind → Bool
  | .notString => true
  | .noPattern => true
  | .multiplePatterns => true
  | .unsupportedType => true
  | .precisionOnNonFloat => true
  | .missingFields _ => true
  | .unnamedFields => true
  | _ => false

/-- A Python value passed to `validate_message`: either a `str` or anything
else (the `isinstance(message, str)` check only distinguishes these). -/
inductive PyVal : Type
  | pstr (s : String)
  | nonstr
  deriving DecidableEq

/-! ### Pattern decomposition and composition -/

/-- First match of `re.findall(":([0-9]+)", p)` (or `"\.([0-9]+)"` with
`mark = '.'`): the maximal digit run directly after the first `mark` that is
followed by at least one digit, converted with `int`. -/
def findNumAfter (mark : Char) : List Char → Option Nat
  | [] => none
  | c :: rest =>
    if c = mark then
      match rest.takeWhile Char.isDigit with
      | [] => findNumAfter mark rest
      | ds => some (digitsToNat ds)
    else findNumAfter mark rest

/-- `Iterwriter.decompose_pattern`: `base` is the last character of the
pattern (`pattern[-1]`, an `IndexError` on the empty string), `pad_length`
the first `:N` digit run, `decimal` the first `.N` digit run. -/
def decompose_pattern (p : List Char) : Except ErrKind (Char × Option Nat × Option Nat) :=
  match p.getLast? with
  | none => .error .indexError
  | some base => .ok (base, findNumAfter ':' p, findNumAfter '.' p)

/-- `Iterwriter.compose_pattern`: `"{{:{}{}}}".format(pad_length, base)` or
`"{{:{}.{}{}}}".format(pad_length, decimal, base)`, with `None` arguments
replaced by the empty string. -/
def compose_pattern (base : Option Char) (pad_length decimal : Option Nat) : String :=
  let b : String := match base with | none => "" | some c => String.mk [c]
  let pl : String := match pad_length with | none => "" | some n => natStr n
  match decimal with
  | none => "\x7b:" ++ pl ++ b ++ "\x7d"
  | some d => "\x7b:" ++ pl ++ "." ++ natStr d ++ b ++ "\x7d"

/-- `Iterwriter.validate_message`: type check, exactly-one-pattern check, then
decomposition with the supported-type and float-only-precision checks.
Returns Python's `True` on success. -/
def validate_message (message : PyVal) : Except ErrKind Bool :=
  match message with
  | .nonstr => .error .notString
  | .pstr s =>
    let patterns := findall s.toList
    match patterns with
    | [] => .error .noPattern
    | p :: rest =>
      if rest ≠ [] then .error .multiplePatterns
      else
        match decompose_pattern p with
        | .error e => .error e
        | .ok (base, _, decimals) =>
          if base ≠ 'd' ∧ base ≠ 'f' then .error .unsupportedType
          else if decimals ≠ none ∧ base ≠ 'f' then .error .precisionOnNonFloat
          else .ok true

/-! ### The `Iterwriter` object -/

/-- The mutable state of an `Iterwriter` instance: the separator, the ordered
name list, and the four per-name dicts (`messages`, `bases`, `pad_lengths`,
`decimals`). -/
structure Iterwriter : Type where
  sep : String
  names : List String
  messages : List (String × String)
  bases : List (String × Char)
  pad_lengths : List (String × Nat)
  decimals : List (String × Option Nat)
  deriving DecidableEq, Repr

namespace Iterwriter

/-- `Iterwriter.add_message`: validate, append the name if new, replace the
pattern by `"{}"` in the stored message, and store the decomposed pattern
parts (`pad_length` defaulting to `0`).  Returns the state after the call and
the raised error, if any; validation failure leaves the state unchanged. -/
def add_message (w : Iterwriter) (name message : String) : Iterwriter × Option ErrKind :=
  match validate_message (.pstr message) with
  | .error e => (w, some e)
  | .ok _ =>
    let names' := if name ∈ w.names then w.names else w.names ++ [name]
    match findall message.toList with
    | [] => (w, some .indexError)
    | p :: _ =>
      match decompose_pattern p with
      | .error e => (w, some e)
      | .ok (base, pad_length, decimal) =>
        ({ w with
            names := names'
            messages := dset w.messages name (String.mk (subPattern message.toList))
            bases := dset w.bases name base
            pad_lengths := dset w.pad_lengths name (pad_length.getD 0)
            decimals := dset w.decimals name decimal }, none)

/-- Helper for the constructor: run `add_message` for each keyword argument in
order, aborting at the first raised error. -/
def addAll : Iterwriter → List (String × String) → Except ErrKind Iterwriter
  | w, [] => .ok w
  | w, (name, message) :: rest =>
    match add_message w name message with
    | (_, some e) => .error e
    | (w', none) => addAll w' rest

/-- `Iterwriter.__init__`: rejects positional arguments, seeds `names` with
the keyword-argument keys, then adds each message. -/
def init (args : List String) (sep : String) (kwargs : List (String × String)) :
    Except ErrKind Iterwriter :=
  if args ≠ [] then .error .unnamedFields
  else
    addAll
      { sep := sep
        names := kwargs.map Prod.fst
        messages := []
        bases := []
        pad_lengths := []
        decimals := [] }
      kwargs

/-! ### Values and numeric rendering -/

/-- A numeric value passed to `format`: a Python `int`, or a Python `float`
whose value is exactly the decimal `m / 10^e`. -/
inductive Value : Type
  | vint (n : Int)
  | vdec (m : Int) (e : Nat)
  deriving DecidableEq, Repr

/-- Python `str(n)` for an `int`. -/
def intStr (n : Int) : String :=
  if n < 0 then "-" ++ natStr n.natAbs else natStr n.natAbs

/-- Fixed-point rendering of the exact decimal `m / 10^e` with `p` digits
after the point, assuming `e ≤ p` (no rounding needed): the content of
`"{:.pf}".format(m / 10**e)`. -/
def fixedStr (m : Int) (e p : Nat) : String :=
  let a : Nat := (m * (10 : Int) ^ (p - e)).natAbs
  let sign : String := if m < 0 then "-" else ""
  let ip : Nat := a / 10 ^ p
  let fp : Nat := a % 10 ^ p
  if p = 0 then sign ++ natStr ip
  else
    let fd := natStr fp
    sign ++ natStr ip ++ "." ++ String.mk (List.replicate (p - fd.length) '0') ++ fd

/-- The zero-width content produced by `pattern.format(value)`: the rendered
text before any padding.  `none` models the `ValueError` Python raises on a
type/format-code mismatch, and the unmodelled case of a float needing
rounding (`e > p`), where exact decimal semantics would diverge from binary
floats. -/
def render0 (base : Char) (decimal : Option Nat) (v : Value) : Option String :=
  if base = 'd' then
    match decimal, v with
    | none, .vint n => some (intStr n)
    | _, _ => none
  else if base = 'f' then
    match v with
    | .vdec m e =>
      let p := decimal.getD 6
      if e ≤ p then some (fixedStr m e p) else none
    | .vint _ => none
  else none

/-! ### The render loop of `Iterwriter.format` -/

/-- One iteration of the loop in `format` (lines 184–199): look up the stored
pattern parts (a `KeyError` if `name` is unknown), render the value, grow the
stored width if the rendered text is longer, and record the composed
element. -/
def formatStep (w : Iterwriter) (c : List (String × String)) (name : String) (v : Value) :
    Except ErrKind (Iterwriter × List (String × String)) :=
  match dget w.bases name with
  | none => .error (.keyError name)
  | some base =>
    match dget w.pad_lengths name with
    | none => .error (.keyError name)
    | some pad =>
      match dget w.decimals name with
      | none => .error (.keyError name)
      | some dec =>
        match render0 base dec v with
        | none => .error .formatError
        | some raw =>
          let composedLen := (padLeft pad raw).length
          if composedLen > pad then
            let pad' := max pad composedLen
            .ok ({ w with pad_lengths := dset w.pad_lengths name pad' },
              dset c name (padLeft pad' raw))
          else
            .ok (w, dset c name (padLeft pad raw))

/-- The loop of `format` over the supplied keyword arguments, threading the
(partially mutated) state; an error aborts the loop but keeps the mutations
already made. -/
def formatLoopAux :
    Iterwriter → List (String × String) → List (String × Value) →
      Iterwriter × List (String × String) × Option ErrKind
  | w, c, [] => (w, c, none)
  | w, c, (name, v) :: rest =>
    match formatStep w c name v with
    | .error e => (w, c, some e)
    | .ok (w', c') => formatLoopAux w' c' rest

/-- The loop of `format`, started with an empty `composed_elements` dict. -/
def formatLoop (w : Iterwriter) (kwargs : List (String × Value)) :
    Iterwriter × List (String × String) × Option ErrKind :=
  formatLoopAux w [] kwargs

end Iterwriter

/-! ### Python `str.format` on auto-numbered fields

After `re.sub(PATTERN_REGEX, "{}", message)` every brace pair in a stored
template is the auto-numbered field `"{}"`; any remaining brace is unmatched.
`pyFmtAux` models `str.format` on exactly these inputs: `"{{"`/`"}}"` are
escapes, `"{}"` consumes the next argument, and any other brace use is a
`ValueError`/`IndexError` (`none`). -/

def pyFmtAux : List Char → List String → Option (List Char)
  | [], _ => some []
  | '{' :: '{' :: r, args => (pyFmtAux r args).map (fun t => '{' :: t)
  | '{' :: '}' :: r, args =>
    match args with
    | [] => none
    | a :: rest => (pyFmtAux r rest).map (fun t => a.toList ++ t)
  | '{' :: _, _ => none
  | '}' :: '}' :: r, args => (pyFmtAux r args).map (fun t => '}' :: t)
  | '}' :: _, _ => none
  | c :: r, args => (pyFmtAux r args).map (fun t => c :: t)

/-- `template.format(arg)` with a single positional argument. -/
def pyFormat1 (template arg : String) : Option String :=
  (pyFmtAux template.toList [arg]).map String.mk

namespace Iterwriter

/-- Lines 207–208 of `format`: render each stored template with its composed
element, iterating over the registered names in order.  A missing dict entry
is a `KeyError`; a failing `str.format` call a `ValueError`. -/
def renderAll (messages c : List (String × String)) :
    List String → Except ErrKind (List String)
  | [] => .ok []
  | n :: rest =>
    match dget messages n with
    | none => .error (.keyError n)
    | some tmpl =>
      match dget c n with
      | none => .error (.keyError n)
      | some s =>
        match pyFormat1 tmpl s with
        | none => .error .formatError
        | some r =>
          match renderAll messages c rest with
          | .error e => .error e
          | .ok rs => .ok (r :: rs)

/-- `Iterwriter.format`: run the render loop over the supplied values, check
that every registered name was supplied (else `MissingFields`, listing the
absent names), then substitute and join in registration order.  The returned
state reflects all width mutations made before any failure. -/
def format (w : Iterwriter) (kwargs : List (String × Value)) :
    Iterwriter × Except ErrKind String :=
  match formatLoop w kwargs with
  | (w', _, some e) => (w', .error e)
  | (w', c, none) =>
    if w'.names.any (fun n => (dget c n).isNone) then
      (w', .error (.missingFields (w'.names.filter (fun n => (dget c n).isNone))))
    else
      match renderAll w'.messages c w'.names with
      | .error e => (w', .error e)
      | .ok parts => (w', .ok (String.intercalate w'.sep parts))

end Iterwriter

/-! ### Error-kind classification lemmas -/

/-- The error kinds that validation (and hence message registration) can
produce. -/
def isValidationKind : ErrKind → Bool
  | .notString => true
  | .noPattern => true
  | .multiplePatterns => true
  | .indexError => true
  | .unsupportedType => true
  | .precisionOnNonFloat => true
  | _ => false

theorem decompose_pattern_error {p : List Char} {e : ErrKind}
    (h : decompose_pattern p = .error e) : e = .indexError := by
  unfold decompose_pattern at h
  cases hp : p.getLast? with
  | none => rw [hp] at h; exact (Except.error.inj h).symm
  | some base => rw [hp] at h; cases h

theorem validate_message_error_kind {m : PyVal} {e : ErrKind}
    (h : validate_message m = .error e) : isValidationKind e = true := by
  cases m with
  | nonstr =>
    simp only [validate_message] at h
    rw [← Except.error.inj h]
    rfl
  | pstr s =>
    simp only [validate_message] at h
    cases hp : findall s.toList with
    | nil =>
      rw [hp] at h
      rw [← Except.error.inj h]
      rfl
    | cons p rest =>
      rw [hp] at h
      by_cases hr : rest = []
      · simp only [hr, ne_eq, not_true_eq_false, if_false] at h
        cases hd : decompose_pattern p with
        | error e' =>
          rw [hd] at h
          rw [← Except.error.inj h, decompose_pattern_error hd]
          rfl
        | ok triple =>
          obtain ⟨base, pl, dec⟩ := triple
          rw [hd] at h
          by_cases hb : base ≠ 'd' ∧ base ≠ 'f'
          · simp only [hb, if_true] at h
            rw [← Except.error.inj h]
            rfl
          · simp only [hb, if_false] at h
            by_cases hdec : dec ≠ none ∧ base ≠ 'f'
            · simp only [hdec, if_true] at h
              rw [← Except.error.inj h]
              rfl
            · simp only [hdec, if_false] at h
              cases h
      · simp only [hr, ne_eq, not_false_eq_true, if_true] at h
        rw [← Except.error.inj h]
        rfl

theorem add_message_error_kind {w : Iterwriter} {n m : String} {e : ErrKind}
    (h : (Iterwriter.add_message w n m).2 = some e) : isValidationKind e = true := by
  unfold Iterwriter.add_message at h
  cases hv : validate_message (.pstr m) with
  | error e' =>
    rw [hv] at h
    rw [← Option.some.inj h]
    exact validate_message_error_kind hv
  | ok b =>
    rw [hv] at h
    simp only at h
    cases hp : findall m.toList with
    | nil =>
      rw [hp] at h
      rw [← Option.some.inj h]
      rfl
    | cons p rest =>
      rw [hp] at h
      simp only at h
      cases hd : decompose_pattern p with
      | error e' =>
        rw [hd] at h
        rw [← Option.some.inj h, decompose_pattern_error hd]
        rfl
      | ok triple =>
        obtain ⟨base, pl, dec⟩ := triple
        rw [hd] at h
        cases h

theorem addAll_error_kind {kwargs : List (String × String)} :
    ∀ {w : Iterwriter} {e : ErrKind},
      Iterwriter.addAll w kwargs = .error e → isValidationKind e = true := by
  induction kwargs with
  | nil => intro w e h; cases h
  | cons p rest ih =>
    intro w e h
    obtain ⟨n, m⟩ := p
    unfold Iterwriter.addAll at h
    cases ha : Iterwriter.add_message w n m with
    | mk w' oe =>
      cases oe with
      | some e' =>
        rw [ha] at h
        rw [← Except.error.inj h]
        exact add_message_error_kind (by rw [ha])
      | none =>
        rw [ha] at h
        exact ih h

/-! ### Round trip between `compose_pattern` and `decompose_pattern` -/

/-- The digit characters contributed by an optional width/precision. -/
def innerDigits : Option Nat → List Char
  | none => []
  | some n => natDigitsF (n + 1) n

/-- The `.N` part contributed by an optional precision. -/
def innerDot : Option Nat → List Char
  | none => []
  | some k => '.' :: natDigitsF (k + 1) k

/-- The characters between the braces of `compose_pattern (some t) a b`. -/
def innerList (t : Char) (a b : Option Nat) : List Char :=
  ':' :: (innerDigits a ++ (innerDot b ++ [t]))

theorem innerDigits_isDigit (a : Option Nat) : ∀ c ∈ innerDigits a, c.isDigit := by
  cases a with
  | none => intro c hc; cases hc
  | some n => exact natDigits_isDigit n

theorem compose_pattern_toList (t : Char) (a b : Option Nat) :
    (compose_pattern (some t) a b).toList = '{' :: innerList t a b ++ ['}'] := by
  cases a <;> cases b <;>
    simp [compose_pattern, natStr, innerList, innerDigits, innerDot, String.toList,
      String.data_append]

theorem innerList_no_brace {t : Char} (ht1 : t ≠ '{') (ht2 : t ≠ '}') (a b : Option Nat) :
    ∀ c ∈ innerList t a b, c ≠ '{' ∧ c ≠ '}' := by
  intro c hc
  simp only [innerList, List.mem_cons, List.mem_append, List.mem_singleton] at hc
  rcases hc with hc | hc | hc | hc
  · subst hc; exact ⟨by decide, by decide⟩
  · cases a with
    | none => cases hc
    | some n => exact natDigits_ne_brace n c hc
  · cases b with
    | none => cases hc
    | some k =>
      rcases List.mem_cons.mp hc with hc | hc
      · subst hc; exact ⟨by decide, by decide⟩
      · exact natDigits_ne_brace k c hc
  · rcases hc with hc | hc
    · subst hc; exact ⟨ht1, ht2⟩
    · cases hc

theorem findallAux_inner {inner : List Char}
    (hb : ∀ c ∈ inner, c ≠ '{' ∧ c ≠ '}') (acc : List Char) :
    findallAux (inner ++ ['}']) (some acc) = [acc ++ inner] := by
  induction inner generalizing acc with
  | nil => simp [findallAux]
  | cons c rest ih =>
    obtain ⟨hc1, hc2⟩ := hb c (List.mem_cons_self c rest)
    have hrest : ∀ c ∈ rest, c ≠ '{' ∧ c ≠ '}' :=
      fun c hc => hb c (List.mem_cons_of_mem _ hc)
    simp only [List.cons_append, findallAux, hc1, hc2, if_false, List.append_eq]
    rw [ih hrest]
    simp

theorem findall_wrap {inner : List Char} (hb : ∀ c ∈ inner, c ≠ '{' ∧ c ≠ '}') :
    findall ('{' :: inner ++ ['}']) = [inner] := by
  show findallAux ('{' :: (inner ++ ['}'])) none = [inner]
  simp only [findallAux, if_pos rfl]
  simpa using findallAux_inner hb []

theorem takeWhile_digits_append {ds l : List Char} (hd : ∀ c ∈ ds, c.isDigit)
    (hl : ∀ h t, l = h :: t → ¬h.isDigit) :
    List.takeWhile Char.isDigit (ds ++ l) = ds := by
  induction ds with
  | nil =>
    cases l with
    | nil => simp
    | cons h t =>
      simp [List.takeWhile_cons, hl h t rfl]
  | cons c rest ih =>
    have hc := hd c (List.mem_cons_self c rest)
    simp [List.takeWhile_cons, hc, ih (fun c hc => hd c (List.mem_cons_of_mem _ hc))]

theorem findNumAfter_not_mem {mark : Char} {l : List Char}
    (h : ∀ c ∈ l, c ≠ mark) : findNumAfter mark l = none := by
  induction l with
  | nil => rfl
  | cons c rest ih =>
    simp only [findNumAfter, h c (List.mem_cons_self c rest), if_false]
    exact ih (fun c hc => h c (List.mem_cons_of_mem _ hc))

theorem findNumAfter_append_not_mem {mark : Char} {pre : List Char} (l : List Char)
    (h : ∀ c ∈ pre, c ≠ mark) :
    findNumAfter mark (pre ++ l) = findNumAfter mark l := by
  induction pre with
  | nil => rfl
  | cons c rest ih =>
    simp only [List.cons_append, findNumAfter, h c (List.mem_cons_self c rest), if_false]
    exact ih (fun c hc => h c (List.mem_cons_of_mem _ hc))

theorem findNumAfter_cons_eq (mark : Char) (rest : List Char) :
    findNumAfter mark (mark :: rest) =
      (match rest.takeWhile Char.isDigit with
        | [] => findNumAfter mark rest
        | ds => some (digitsToNat ds)) := by
  simp [findNumAfter]

theorem findNumAfter_cons_ne {mark c : Char} (h : c ≠ mark) (rest : List Char) :
    findNumAfter mark (c :: rest) = findNumAfter mark rest := by
  simp [findNumAfter, h]

theorem findNumAfter_colon_innerList {t : Char} (ht : ¬t.isDigit) (htc : t ≠ ':')
    (a b : Option Nat) : findNumAfter ':' (innerList t a b) = a := by
  have hheadrest : ∀ h tl, innerDot b ++ [t] = h :: tl → ¬h.isDigit := by
    intro h tl heq
    cases b with
    | none =>
      simp only [innerDot, List.nil_append] at heq
      injection heq with h1 _
      exact h1 ▸ ht
    | some k =>
      simp only [innerDot, List.cons_append] at heq
      injection heq with h1 _
      rw [← h1]
      decide
  have htake : List.takeWhile Char.isDigit (innerDot b ++ [t]) = [] := by
    cases hdl : innerDot b ++ [t] with
    | nil => simp
    | cons h tl => simp [List.takeWhile_cons, hheadrest h tl hdl]
  cases a with
  | some n =>
    obtain ⟨d, ds, hds⟩ := List.exists_cons_of_ne_nil (natDigits_ne_nil n)
    simp only [innerList, innerDigits]
    rw [findNumAfter_cons_eq]
    rw [takeWhile_digits_append (natDigits_isDigit n) hheadrest, hds]
    simp only []
    rw [← hds, digitsToNat_natDigits n]
  | none =>
    simp only [innerList, innerDigits, List.nil_append]
    rw [findNumAfter_cons_eq, htake]
    simp only []
    refine findNumAfter_not_mem ?_
    intro c hc
    simp only [List.mem_append, List.mem_singleton] at hc
    rcases hc with hc | hc
    · cases b with
      | none => cases hc
      | some k =>
        rcases List.mem_cons.mp hc with hc | hc
        · subst hc; decide
        · intro heq
          exact absurd ((heq ▸ natDigits_isDigit k c hc) : (':' : Char).isDigit)
            (by decide)
    · subst hc; exact htc

theorem findNumAfter_dot_innerList {t : Char} (ht : ¬t.isDigit) (htd : t ≠ '.')
    (a b : Option Nat) : findNumAfter '.' (innerList t a b) = b := by
  have h1 : findNumAfter '.' (innerList t a b) =
      findNumAfter '.' (innerDot b ++ [t]) := by
    simp only [innerList]
    rw [findNumAfter_cons_ne (show (':' : Char) ≠ '.' by decide)]
    refine findNumAfter_append_not_mem _ ?_
    intro c hc heq
    exact absurd ((heq ▸ innerDigits_isDigit a c hc) : ('.' : Char).isDigit) (by decide)
  rw [h1]
  cases b with
  | none =>
    simp only [innerDot, List.nil_append]
    rw [findNumAfter_cons_ne htd]
    rfl
  | some k =>
    obtain ⟨d, ds, hds⟩ := List.exists_cons_of_ne_nil (natDigits_ne_nil k)
    simp only [innerDot, List.cons_append]
    rw [findNumAfter_cons_eq]
    rw [takeWhile_digits_append (natDigits_isDigit k)
      (fun h tl heq => by injection heq with h1 _; exact h1 ▸ ht), hds]
    simp only []
    rw [← hds, digitsToNat_natDigits k]

theorem decompose_innerList {t : Char} (ht : ¬t.isDigit) (htc : t ≠ ':')
    (htd : t ≠ '.') (a b : Option Nat) :
    decompose_pattern (innerList t a b) = .ok (t, a, b) := by
  have hlast : (innerList t a b).getLast? = some t := by
    have hsplit : innerList t a b = (':' :: (innerDigits a ++ innerDot b)) ++ [t] := by
      simp [innerList]
    rw [hsplit]
    exact List.getLast?_concat _
  unfold decompose_pattern
  rw [hlast]
  rw [findNumAfter_colon_innerList ht htc, findNumAfter_dot_innerList ht htd]

/-- Shared round-trip helper: for a non-digit, non-separator type character,
`compose_pattern` output contains exactly one pattern site, whose content
decomposes back to the original triple. -/
theorem compose_roundtrip {t : Char} (ht1 : t ≠ '{') (ht2 : t ≠ '}')
    (ht3 : ¬t.isDigit) (ht4 : t ≠ ':') (ht5 : t ≠ '.') (a b : Option Nat) :
    findall (compose_pattern (some t) a b).toList = [innerList t a b] ∧
      decompose_pattern (innerList t a b) = .ok (t, a, b) := by
  constructor
  · rw [compose_pattern_toList]
    exact findall_wrap (innerList_no_brace ht1 ht2 a b)
  · exact decompose_innerList ht3 ht4 ht5 a b

/-! ### Lemmas about the render loop of `format` -/

theorem dset_dget_eq {α : Type} {d : List (String × α)} {k : String} {v : α}
    (h : dget d k = some v) : dset d k v = d := by
  induction d with
  | nil => cases h
  | cons p rest ih =>
    obtain ⟨k', v'⟩ := p
    by_cases hk : k' = k
    · subst hk
      simp [dget] at h
      simp [dset, h]
    · simp only [dget, hk, if_false] at h
      simp [dset, hk, ih h]

namespace Iterwriter

/-- The computation of one successful `formatStep`, given the dict lookups and
the rendered content. -/
theorem formatStep_eq {w : Iterwriter} {n : String} {v : Value} {base : Char}
    {pad : Nat} {dec : Option Nat} {raw : String}
    (hb : dget w.bases n = some base) (hp : dget w.pad_lengths n = some pad)
    (hd : dget w.decimals n = some dec) (hr : render0 base dec v = some raw)
    (c : List (String × String)) :
    formatStep w c n v =
      .ok ({ w with pad_lengths := dset w.pad_lengths n (max pad raw.length) },
        dset c n (padLeft (max pad raw.length) raw)) := by
  simp only [formatStep, hb, hp, hd, hr]
  by_cases hgt : (padLeft pad raw).length > pad
  · rw [if_pos hgt]
    have hmax : max pad ((padLeft pad raw).length) = max pad raw.length := by
      rw [padLeft_length]; omega
    rw [hmax]
  · rw [if_neg hgt]
    have hle : raw.length ≤ pad := by
      have := padLeft_length pad raw
      omega
    have hmax : max pad raw.length = pad := by omega
    rw [hmax, dset_dget_eq hp]

/-- Inversion of a successful `formatStep`. -/
theorem formatStep_ok {w : Iterwriter} {c : List (String × String)} {n : String}
    {v : Value} {w' : Iterwriter} {c' : List (String × String)}
    (h : formatStep w c n v = .ok (w', c')) :
    ∃ base pad dec raw, dget w.bases n = some base ∧ dget w.pad_lengths n = some pad ∧
      dget w.decimals n = some dec ∧ render0 base dec v = some raw ∧
      w' = { w with pad_lengths := dset w.pad_lengths n (max pad raw.length) } ∧
      c' = dset c n (padLeft (max pad raw.length) raw) := by
  cases hb : dget w.bases n with
  | none =>
    simp only [formatStep, hb] at h
    exact Except.noConfusion h
  | some base =>
    cases hp : dget w.pad_lengths n with
    | none =>
      simp only [formatStep, hb, hp] at h
      exact Except.noConfusion h
    | some pad =>
      cases hd : dget w.decimals n with
      | none =>
        simp only [formatStep, hb, hp, hd] at h
        exact Except.noConfusion h
      | some dec =>
        cases hr : render0 base dec v with
        | none =>
          simp only [formatStep, hb, hp, hd, hr] at h
          exact Except.noConfusion h
        | some raw =>
          rw [formatStep_eq hb hp hd hr c] at h
          have h' := Except.ok.inj h
          refine ⟨base, pad, dec, raw, rfl, rfl, rfl, hr, ?_, ?_⟩
          · exact (congrArg Prod.fst h').symm
          · exact (congrArg Prod.snd h').symm

/-- An unregistered name makes `formatStep` raise `KeyError`. -/
theorem formatStep_keyError {w : Iterwriter} {n : String}
    (hb : dget w.bases n = none) (c : List (String × String)) (v : Value) :
    formatStep w c n v = .error (.keyError n) := by
  simp only [formatStep, hb]

/-- The loop never touches the separator, names, templates, bases or
decimals. -/
theorem formatLoopAux_skeleton {kw : List (String × Value)} :
    ∀ {w : Iterwriter} {c : List (String × String)} {w' : Iterwriter}
      {c' : List (String × String)} {e : Option ErrKind},
      formatLoopAux w c kw = (w', c', e) →
      w'.sep = w.sep ∧ w'.names = w.names ∧ w'.messages = w.messages ∧
        w'.bases = w.bases ∧ w'.decimals = w.decimals := by
  induction kw with
  | nil =>
    intro w c w' c' e h
    simp only [formatLoopAux] at h
    injection h with hw hrest
    injection hrest with hc he
    subst hw
    exact ⟨rfl, rfl, rfl, rfl, rfl⟩
  | cons p rest ih =>
    intro w c w' c' e h
    obtain ⟨n, v⟩ := p
    unfold formatLoopAux at h
    cases hs : formatStep w c n v with
    | error e' =>
      rw [hs] at h
      simp only at h
      injection h with hw hrest
      subst hw
      exact ⟨rfl, rfl, rfl, rfl, rfl⟩
    | ok pair =>
      obtain ⟨w1, c1⟩ := pair
      rw [hs] at h
      simp only at h
      obtain ⟨b, pd, dc, r, -, -, -, -, hw1, -⟩ := formatStep_ok hs
      obtain ⟨g1, g2, g3, g4, g5⟩ := ih h
      subst hw1
      exact ⟨g1, g2, g3, g4, g5⟩

/-- Stored widths never decrease across the loop, whatever its outcome. -/
theorem formatLoopAux_pads_mono {kw : List (String × Value)} :
    ∀ {w : Iterwriter} {c : List (String × String)} {w' : Iterwriter}
      {c' : List (String × String)} {e : Option ErrKind},
      formatLoopAux w c kw = (w', c', e) →
      ∀ k p, dget w.pad_lengths k = some p →
        ∃ p', dget w'.pad_lengths k = some p' ∧ p ≤ p' := by
  induction kw with
  | nil =>
    intro w c w' c' e h k p hk
    simp only [formatLoopAux] at h
    injection h with hw hrest
    exact ⟨p, hw ▸ hk, le_refl p⟩
  | cons q rest ih =>
    intro w c w' c' e h k p hk
    obtain ⟨n, v⟩ := q
    unfold formatLoopAux at h
    cases hs : formatStep w c n v with
    | error e' =>
      rw [hs] at h
      simp only at h
      injection h with hw hrest
      exact ⟨p, hw ▸ hk, le_refl p⟩
    | ok pair =>
      obtain ⟨w1, c1⟩ := pair
      rw [hs] at h
      obtain ⟨b, pd, dc, r, hb, hp, hd, hr, hw1, hc1⟩ := formatStep_ok hs
      by_cases hkn : n = k
      · subst hkn
        have hpk : p = pd := Option.some.inj (hk ▸ hp)
        have h1 : dget w1.pad_lengths n = some (max pd r.length) := by
          rw [hw1]
          exact dget_dset_self _ _ _
        obtain ⟨p', hp', hle⟩ := ih h n _ h1
        exact ⟨p', hp', le_trans (hpk ▸ Nat.le_max_left pd r.length) hle⟩
      · have h1 : dget w1.pad_lengths k = some p := by
          rw [hw1]
          exact (dget_dset_ne _ _ hkn).trans hk
        exact ih h k p h1

/-- The order-independent condition for one loop iteration to succeed: the
name is registered in all three dicts and the value renders under its base
and precision. -/
def canStep (w : Iterwriter) (n : String) (v : Value) : Prop :=
  ∃ base pad dec raw, dget w.bases n = some base ∧ dget w.pad_lengths n = some pad ∧
    dget w.decimals n = some dec ∧ render0 base dec v = some raw

theorem formatStep_ok_of_canStep {w : Iterwriter} {n : String} {v : Value}
    (h : canStep w n v) (c : List (String × String)) :
    ∃ w' c', formatStep w c n v = .ok (w', c') := by
  obtain ⟨base, pad, dec, raw, hb, hp, hd, hr⟩ := h
  exact ⟨_, _, formatStep_eq hb hp hd hr c⟩

theorem canStep_iff_of_step_ok {w : Iterwriter} {c : List (String × String)}
    {n : String} {v : Value} {w1 : Iterwriter} {c1 : List (String × String)}
    (hs : formatStep w c n v = .ok (w1, c1)) (k : String) (u : Value) :
    canStep w1 k u ↔ canStep w k u := by
  obtain ⟨b, pd, dc, r, hb, hp, hd, hr, hw1, hc1⟩ := formatStep_ok hs
  subst hw1
  constructor
  · rintro ⟨base, pad, dec, raw, gb, gp, gd, gr⟩
    by_cases hkn : n = k
    · subst hkn
      exact ⟨base, pd, dec, raw, gb, hp, gd, gr⟩
    · rw [show dget (dset w.pad_lengths n (max pd r.length)) k = dget w.pad_lengths k
        from dget_dset_ne _ _ hkn] at gp
      exact ⟨base, pad, dec, raw, gb, gp, gd, gr⟩
  · rintro ⟨base, pad, dec, raw, gb, gp, gd, gr⟩
    by_cases hkn : n = k
    · subst hkn
      exact ⟨base, max pd r.length, dec, raw, gb, dget_dset_self _ _ _, gd, gr⟩
    · refine ⟨base, pad, dec, raw, gb, ?_, gd, gr⟩
      rw [show dget (dset w.pad_lengths n (max pd r.length)) k = dget w.pad_lengths k
        from dget_dset_ne _ _ hkn]
      exact gp

/-- The loop runs to completion exactly when every supplied entry can step in
the initial state: step success is independent of the width mutations made by
earlier iterations. -/
theorem formatLoopAux_err_none_iff {kw : List (String × Value)} :
    ∀ {w : Iterwriter} {c : List (String × String)},
      (formatLoopAux w c kw).2.2 = none ↔ ∀ p ∈ kw, canStep w p.1 p.2 := by
  induction kw with
  | nil => intro w c; simp [formatLoopAux]
  | cons q rest ih =>
    intro w c
    obtain ⟨n, v⟩ := q
    constructor
    · intro h p hp
      unfold formatLoopAux at h
      cases hs : formatStep w c n v with
      | error e' =>
        rw [hs] at h
        simp only at h
        cases h
      | ok pair =>
        obtain ⟨w1, c1⟩ := pair
        rw [hs] at h
        simp only at h
        rcases List.mem_cons.mp hp with hp | hp
        · subst hp
          obtain ⟨b, pd, dc, r, hb, hpd, hd, hr, -, -⟩ := formatStep_ok hs
          exact ⟨b, pd, dc, r, hb, hpd, hd, hr⟩
        · exact (canStep_iff_of_step_ok hs p.1 p.2).mp ((ih.mp h) p hp)
    · intro h
      have hn : canStep w n v := h (n, v) (List.mem_cons_self _ _)
      obtain ⟨w1, c1, hs⟩ := formatStep_ok_of_canStep hn c
      unfold formatLoopAux
      rw [hs]
      simp only []
      refine ih.mpr ?_
      intro p hp
      exact (canStep_iff_of_step_ok hs p.1 p.2).mpr (h p (List.mem_cons_of_mem _ hp))

/-- Invariant: every composed element's length equals the field's stored
width after its iteration, in every loop state. -/
theorem formatLoopAux_composed_len {kw : List (String × Value)} :
    ∀ {w : Iterwriter} {c : List (String × String)} {w' : Iterwriter}
      {c' : List (String × String)} {e : Option ErrKind},
      (∀ k s, dget c k = some s → dget w.pad_lengths k = some s.length) →
      formatLoopAux w c kw = (w', c', e) →
      ∀ k s, dget c' k = some s → dget w'.pad_lengths k = some s.length := by
  induction kw with
  | nil =>
    intro w c w' c' e hinv h
    simp only [formatLoopAux] at h
    injection h with hw hrest
    injection hrest with hc he
    subst hw; subst hc
    exact hinv
  | cons q rest ih =>
    intro w c w' c' e hinv h
    obtain ⟨n, v⟩ := q
    unfold formatLoopAux at h
    cases hs : formatStep w c n v with
    | error e' =>
      rw [hs] at h
      simp only at h
      injection h with hw hrest
      injection hrest with hc he
      subst hw; subst hc
      exact hinv
    | ok pair =>
      obtain ⟨w1, c1⟩ := pair
      rw [hs] at h
      simp only at h
      refine ih ?_ h
      obtain ⟨b, pd, dc, r, hb, hp, hd, hr, hw1, hc1⟩ := formatStep_ok hs
      subst hw1; subst hc1
      intro k s hk
      by_cases hkn : n = k
      · subst hkn
        rw [dget_dset_self] at hk
        have hlen : s.length = max pd r.length := by
          rw [← Option.some.inj hk, padLeft_length]
          omega
        rw [hlen]
        exact dget_dset_self _ _ _
      · rw [dget_dset_ne _ _ hkn] at hk
        rw [show dget (dset w.pad_lengths n (max pd r.length)) k = dget w.pad_lengths k
          from dget_dset_ne _ _ hkn]
        exact hinv k s hk

/-- On a completed loop, a name has a composed element exactly when it was
already present or was supplied. -/
theorem formatLoopAux_keys {kw : List (String × Value)} :
    ∀ {w : Iterwriter} {c : List (String × String)} {w' : Iterwriter}
      {c' : List (String × String)},
      formatLoopAux w c kw = (w', c', none) →
      ∀ k, (dget c' k).isSome = true ↔
        ((dget c k).isSome = true ∨ k ∈ kw.map Prod.fst) := by
  induction kw with
  | nil =>
    intro w c w' c' h k
    simp only [formatLoopAux] at h
    injection h with hw hrest
    injection hrest with hc he
    subst hc
    simp
  | cons q rest ih =>
    intro w c w' c' h k
    obtain ⟨n, v⟩ := q
    unfold formatLoopAux at h
    cases hs : formatStep w c n v with
    | error e' =>
      rw [hs] at h
      simp only at h
      injection h with hw hrest
      injection hrest with hc he
      cases he
    | ok pair =>
      obtain ⟨w1, c1⟩ := pair
      rw [hs] at h
      simp only at h
      obtain ⟨b, pd, dc, r, hb, hp, hd, hr, hw1, hc1⟩ := formatStep_ok hs
      subst hc1
      rw [ih h k]
      constructor
      · rintro (hk | hk)
        · by_cases hkn : n = k
          · exact Or.inr (by simp [← hkn])
          · rw [dget_dset_ne _ _ hkn] at hk
            exact Or.inl hk
        · exact Or.inr (by simp [hk])
      · rintro (hk | hk)
        · by_cases hkn : n = k
          · subst hkn
            exact Or.inl (by simp [dget_dset_self])
          · rw [dget_dset_ne _ _ hkn]
            exact Or.inl hk
        · rcases (by simpa using hk : k = n ∨ ∃ x, (k, x) ∈ rest) with hk | ⟨x, hx⟩
          · subst hk
            exact Or.inl (by simp [dget_dset_self])
          · exact Or.inr (List.mem_map.mpr ⟨(k, x), hx, rfl⟩)

/-- Splitting the loop over an append of argument lists. -/
theorem formatLoopAux_append {kw1 kw2 : List (String × Value)} :
    ∀ {w : Iterwriter} {c : List (String × String)},
      formatLoopAux w c (kw1 ++ kw2) =
        (match formatLoopAux w c kw1 with
          | (w', c', none) => formatLoopAux w' c' kw2
          | (w', c', some e) => (w', c', some e)) := by
  induction kw1 with
  | nil => intro w c; simp [formatLoopAux]
  | cons q rest ih =>
    intro w c
    obtain ⟨n, v⟩ := q
    have lhs : formatLoopAux w c (((n, v) :: rest) ++ kw2) =
        (match formatStep w c n v with
          | .error e => (w, c, some e)
          | .ok (w1, c1) => formatLoopAux w1 c1 (rest ++ kw2)) := rfl
    have rhs : formatLoopAux w c ((n, v) :: rest) =
        (match formatStep w c n v with
          | .error e => (w, c, some e)
          | .ok (w1, c1) => formatLoopAux w1 c1 rest) := rfl
    rw [lhs, rhs]
    cases hs : formatStep w c n v with
    | error e' => simp only []
    | ok pair =>
      obtain ⟨w1, c1⟩ := pair
      simp only []
      exact ih

/-- Pointwise characterization of a completed loop run over arguments with
distinct names: each supplied field's width becomes the max of its old width
and the rendered length, its composed element is the rendered text padded to
that width, and nothing else changes. -/
theorem formatLoopAux_char {kw : List (String × Value)}
    (hnd : (kw.map Prod.fst).Nodup) :
    ∀ {w : Iterwriter} {c : List (String × String)} {w' : Iterwriter}
      {c' : List (String × String)},
      formatLoopAux w c kw = (w', c', none) →
      (∀ k, k ∉ kw.map Prod.fst →
        dget c' k = dget c k ∧ dget w'.pad_lengths k = dget w.pad_lengths k) ∧
      (∀ k v, (k, v) ∈ kw → ∃ base pad dec raw,
        dget w.bases k = some base ∧ dget w.pad_lengths k = some pad ∧
        dget w.decimals k = some dec ∧ render0 base dec v = some raw ∧
        dget w'.pad_lengths k = some (max pad raw.length) ∧
        dget c' k = some (padLeft (max pad raw.length) raw)) := by
  induction kw with
  | nil =>
    intro w c w' c' h
    simp only [formatLoopAux] at h
    injection h with hw hrest
    injection hrest with hc he
    subst hw; subst hc
    exact ⟨fun k _ => ⟨rfl, rfl⟩, fun k v hk => absurd hk (List.not_mem_nil _)⟩
  | cons q rest ih =>
    intro w c w' c' h
    obtain ⟨n, v⟩ := q
    have hn_rest : n ∉ rest.map Prod.fst := by
      have := hnd
      simp only [List.map_cons, List.nodup_cons] at this
      exact this.1
    have hnd_rest : (rest.map Prod.fst).Nodup := by
      have := hnd
      simp only [List.map_cons, List.nodup_cons] at this
      exact this.2
    unfold formatLoopAux at h
    cases hs : formatStep w c n v with
    | error e' =>
      rw [hs] at h
      simp only at h
      injection h with hw hrest'
      injection hrest' with hc he
      cases he
    | ok pair =>
      obtain ⟨w1, c1⟩ := pair
      rw [hs] at h
      simp only at h
      obtain ⟨b, pd, dc, r, hb, hp, hd, hr, hw1, hc1⟩ := formatStep_ok hs
      obtain ⟨notmem1, mem1⟩ := ih hnd_rest h
      constructor
      · intro k hk
        have hkn : k ≠ n := fun heq => hk (by simp [heq])
        have hkrest : k ∉ rest.map Prod.fst := fun hm => hk (by simp [hm])
        obtain ⟨g1, g2⟩ := notmem1 k hkrest
        refine ⟨?_, ?_⟩
        · rw [g1, hc1, dget_dset_ne _ _ (fun heq => hkn heq.symm)]
        · rw [g2, hw1]
          exact dget_dset_ne _ _ (fun heq => hkn heq.symm)
      · intro k u hk
        rcases List.mem_cons.mp hk with hk | hk
        · obtain ⟨hk1, hk2⟩ := Prod.mk.injEq .. ▸ hk
          subst hk1; subst hk2
          obtain ⟨g1, g2⟩ := notmem1 _ hn_rest
          refine ⟨b, pd, dc, r, hb, hp, hd, hr, ?_, ?_⟩
          · rw [g2, hw1]
            exact dget_dset_self _ _ _
          · rw [g1, hc1]
            exact dget_dset_self _ _ _
        · have hkmem : k ∈ rest.map Prod.fst := List.mem_map.mpr ⟨(k, u), hk, rfl⟩
          have hkn : k ≠ n := fun heq => hn_rest (heq ▸ hkmem)
          obtain ⟨base, pad, dec, raw, gb, gp, gd, gr, gp', gc'⟩ := mem1 k u hk
          refine ⟨base, pad, dec, raw, ?_, ?_, ?_, gr, gp', gc'⟩
          · rw [← gb, hw1]
          · rw [← gp, hw1]
            exact (dget_dset_ne _ _ (fun heq => hkn heq.symm)).symm
          · rw [← gd, hw1]

/-- `renderAll` only depends on the composed-elements dict through lookups. -/
theorem renderAll_congr {messages c1 c2 : List (String × String)}
    (h : ∀ k, dget c1 k = dget c2 k) :
    ∀ ns, renderAll messages c1 ns = renderAll messages c2 ns := by
  intro ns
  induction ns with
  | nil => rfl
  | cons n rest ih =>
    unfold renderAll
    rw [h n, ih]

/-- The final substitution step can only raise `KeyError` or a format
`ValueError`, never `MissingFields`. -/
theorem renderAll_error_kind {messages c : List (String × String)} :
    ∀ {ns : List String} {e : ErrKind}, renderAll messages c ns = .error e →
      e = .formatError ∨ ∃ n, e = .keyError n := by
  intro ns
  induction ns with
  | nil => intro e h; cases h
  | cons n rest ih =>
    intro e h
    unfold renderAll at h
    cases hm : dget messages n with
    | none =>
      rw [hm] at h
      simp only at h
      exact Or.inr ⟨n, (Except.error.inj h).symm⟩
    | some tmpl =>
      rw [hm] at h
      simp only at h
      cases hc : dget c n with
      | none =>
        rw [hc] at h
        simp only at h
        exact Or.inr ⟨n, (Except.error.inj h).symm⟩
      | some s =>
        rw [hc] at h
        simp only at h
        cases hf : pyFormat1 tmpl s with
        | none =>
          rw [hf] at h
          simp only at h
          exact Or.inl (Except.error.inj h).symm
        | some r =>
          rw [hf] at h
          simp only at h
          cases hrest : renderAll messages c rest with
          | error e' =>
            rw [hrest] at h
            simp only at h
            exact ih ((Except.error.inj h) ▸ hrest)
          | ok rs =>
            rw [hrest] at h
            simp only at h
            cases h

/-- `format` always returns the loop's (possibly mutated) state. -/
theorem format_fst (w : Iterwriter) (kw : List (String × Iterwriter.Value)) :
    (format w kw).1 = (formatLoop w kw).1 := by
  unfold format
  rcases hl : formatLoop w kw with ⟨w', c, e⟩
  cases e with
  | some e' => rfl
  | none =>
    simp only []
    by_cases hmiss : w'.names.any (fun n => (dget c n).isNone)
    · rw [if_pos hmiss]
    · rw [if_neg hmiss]
      cases hr : renderAll w'.messages c w'.names <;> rfl

end Iterwriter

/-- Modelled from the spec (§4.1 compose): the canonical pattern string
`"{:" + (minWidth or "") + ("." + precision if precision is set else "") +
(typeTag or "") + "}"`, for comparison with `compose_pattern`. -/
def composeSpec (typeTag : Option Char) (minWidth precision : Option Nat) : String :=
  "\x7b:" ++ (match minWidth with | none => "" | some n => natStr n) ++
    (match precision with | none => "" | some k => "." ++ natStr k) ++
    (match typeTag with | none => "" | some c => String.mk [c]) ++ "\x7d"

/-- A one-field writer (field `a`, pattern `{:d}` with width 0), as produced
by `Iterwriter(a="a={:d}")`. -/
def sampleW : Iterwriter :=
  { sep := "--", names := ["a"], messages := [("a", "a={}")],
    bases := [("a", 'd')], pad_lengths := [("a", 0)], decimals := [("a", none)] }

/-- A two-field writer (fields `a`, `b`, both `{:d}` with width 0), as
produced by `Iterwriter(a="a={:d}", b="b={:d}")`. -/
def sampleAB : Iterwriter :=
  { sep := " | ", names := ["a", "b"],
    messages := [("a", "a={}"), ("b", "b={}")],
    bases := [("a", 'd'), ("b", 'd')],
    pad_lengths := [("a", 0), ("b", 0)],
    decimals := [("a", none), ("b", none)] }

/-- **C8**: `compose_pattern` produces the canonical pattern string
`"{:" + minWidth + ("." + precision when present) + typeTag + "}"` in every
combination of present/absent parts, and with all three absent it returns
exactly the bare placeholder `"{:}"`. -/
theorem C8_compose_canonical :
    (∀ (t : Option Char) (a b : Option Nat), compose_pattern t a b = composeSpec t a b) ∧
      compose_pattern none none none = "{:}" := by
  refine ⟨?_, rfl⟩
  intro t a b
  apply String.ext
  cases t <;> cases a <;> cases b <;>
    simp [compose_pattern, composeSpec, String.data_append]

/-- **C10**: the message `"{}"` contains one substitution site with an empty
pattern, so `decompose_pattern` takes the last character of an empty string:
`validate_message` (and hence `add_message` and the constructor) escapes with
an `IndexError`, which is outside the documented error taxonomy. -/
theorem C10_empty_pattern_escapes :
    validate_message (.pstr "{}") = .error .indexError ∧
    (∀ (w : Iterwriter) (n : String),
      Iterwriter.add_message w n "{}" = (w, some .indexError)) ∧
    Iterwriter.init [] " " [("x", "{}")] = .error .indexError ∧
    inTaxonomy .indexError = false ∧
    errClass .indexError = .indexErrorClass :=
  ⟨rfl, fun _ _ => rfl, rfl, rfl, rfl⟩

/-- **C9**: constructing with any positional argument fails with the
unnamed-fields `NotImplementedError`; construction with only named fields is
never rejected with that kind. -/
theorem C9_unnamed_rejected :
    (∀ (a : String) (args : List String) (sep : String)
        (kwargs : List (String × String)),
      Iterwriter.init (a :: args) sep kwargs = .error .unnamedFields) ∧
    (∀ (sep : String) (kwargs : List (String × String)) (e : ErrKind),
      Iterwriter.init [] sep kwargs = .error e → e ≠ .unnamedFields) ∧
    errClass .unnamedFields = .notImplementedError := by
  refine ⟨?_, ?_, rfl⟩
  · intro a args sep kwargs
    unfold Iterwriter.init
    rw [if_pos (by simp)]
  · intro sep kwargs e h heq
    unfold Iterwriter.init at h
    rw [if_neg (by simp)] at h
    have hkind := addAll_error_kind h
    rw [heq] at hkind
    simp [isValidationKind] at hkind

/-- Witness for C9 at concrete inputs. -/
theorem C9_unnamed_witness :
    Iterwriter.init ["{:3d}"] " " [] = .error .unnamedFields ∧
    Iterwriter.init [] " " [("a", "no pattern")] = .error .noPattern ∧
    ErrKind.noPattern ≠ .unnamedFields :=
  ⟨C9_unnamed_rejected.1 "{:3d}" [] " " [],
   rfl,
   C9_unnamed_rejected.2.1 " " [("a", "no pattern")] .noPattern rfl⟩

/-- **C2** counterexample: `compose_pattern` returns the pattern *with* its
braces, while `decompose_pattern` reads the last character, so the literal
composition of the two maps the type tag `'d'` to `'}'`. -/
theorem C2_roundtrip_counterexample :
    decompose_pattern (compose_pattern (some 'd') none none).toList =
      .ok ('}', none, none) ∧ ('}' : Char) ≠ 'd' :=
  ⟨rfl, by decide⟩

/-- **C2** amended: for every valid triple, decomposing the pattern content
*extracted from inside the braces* of `compose_pattern`'s output (as
`validate_message`/`add_message` do via the pattern regex) yields back the
same triple. -/
theorem C2_roundtrip_amended (t : Char) (a b : Option Nat)
    (ht : t = 'd' ∨ t = 'f') (_hfloat : b ≠ none → t = 'f') :
    (findall (compose_pattern (some t) a b).toList).map decompose_pattern =
      [.ok (t, a, b)] := by
  have hconds : t ≠ '{' ∧ t ≠ '}' ∧ ¬t.isDigit ∧ t ≠ ':' ∧ t ≠ '.' := by
    rcases ht with rfl | rfl <;>
      exact ⟨by decide, by decide, by decide, by decide, by decide⟩
  obtain ⟨hc1, hc2, hc3, hc4, hc5⟩ := hconds
  obtain ⟨h1, h2⟩ := compose_roundtrip hc1 hc2 hc3 hc4 hc5 a b
  rw [h1, List.map_singleton, h2]

/-- Witness for the amended C2 at a concrete triple. -/
theorem C2_roundtrip_witness :
    (findall (compose_pattern (some 'f') (some 7) (some 2)).toList).map
        decompose_pattern = [.ok ('f', some 7, some 2)] :=
  C2_roundtrip_amended 'f' (some 7) (some 2) (Or.inr rfl) (fun _ => rfl)

/-- **C5**: `validate_message` rejects each malformed template with the
matching kind and Python exception class (non-string → `NotString`
`ValueError`; no site → `NoPattern` `ValueError`; several sites →
`MultiplePatterns` `NotImplementedError`; type tag outside `d`/`f` →
`UnsupportedType` `NotImplementedError`; precision on a non-float →
`PrecisionOnNonFloat` `ValueError`), and accepts every well-formed template
(`{:d}`/`{:f}` with or without width, with or without precision on float),
returning `True`. -/
theorem C5_validate_taxonomy :
    (validate_message .nonstr = .error .notString ∧
      errClass .notString = .valueError) ∧
    (∀ s : String, findall s.toList = [] →
      validate_message (.pstr s) = .error .noPattern) ∧
    (∀ (s : String) (p q : List Char) (r : List (List Char)),
      findall s.toList = p :: q :: r →
      validate_message (.pstr s) = .error .multiplePatterns) ∧
    (∀ (s : String) (p : List Char) (t : Char) (a b : Option Nat),
      findall s.toList = [p] → decompose_pattern p = .ok (t, a, b) →
      t ≠ 'd' → t ≠ 'f' → validate_message (.pstr s) = .error .unsupportedType) ∧
    (∀ (s : String) (p : List Char) (a : Option Nat) (k : Nat),
      findall s.toList = [p] → decompose_pattern p = .ok ('d', a, some k) →
      validate_message (.pstr s) = .error .precisionOnNonFloat) ∧
    (∀ (t : Char) (a b : Option Nat), (t = 'd' ∨ t = 'f') → (b ≠ none → t = 'f') →
      validate_message (.pstr (compose_pattern (some t) a b)) = .ok true) ∧
    (errClass .noPattern = .valueError ∧
      errClass .multiplePatterns = .notImplementedError ∧
      errClass .unsupportedType = .notImplementedError ∧
      errClass .precisionOnNonFloat = .valueError) := by
  refine ⟨⟨rfl, rfl⟩, ?_, ?_, ?_, ?_, ?_, rfl, rfl, rfl, rfl⟩
  · intro s h
    have h' : findall s.data = [] := h
    simp [validate_message, h']
  · intro s p q r h
    have h' : findall s.data = p :: q :: r := h
    simp [validate_message, h']
  · intro s p t a b h hd ht1 ht2
    have h' : findall s.data = [p] := h
    simp [validate_message, h', hd, ht1, ht2]
  · intro s p a k h hd
    have h' : findall s.data = [p] := h
    simp [validate_message, h', hd]
  · intro t a b ht hfloat
    rcases ht with rfl | rfl
    · have hb : b = none := by
        by_contra hne
        exact absurd (hfloat hne) (by decide)
      subst hb
      obtain ⟨h1, h2⟩ :=
        compose_roundtrip (t := 'd') (by decide) (by decide) (by decide) (by decide)
          (by decide) a none
      have h1' : findall (compose_pattern (some 'd') a none).data =
        [innerList 'd' a none] := h1
      simp [validate_message, h1', h2]
    · obtain ⟨h1, h2⟩ :=
        compose_roundtrip (t := 'f') (by decide) (by decide) (by decide) (by decide)
          (by decide) a b
      have h1' : findall (compose_pattern (some 'f') a b).data =
        [innerList 'f' a b] := h1
      simp [validate_message, h1', h2]

/-- Witness for C5 at concrete templates, one per error kind plus an
accepted one. -/
theorem C5_validate_witness :
    validate_message .nonstr = .error .notString ∧
    validate_message (.pstr "no pattern") = .error .noPattern ∧
    validate_message (.pstr "Two patterns {:5.2f} {:6.3f}") = .error .multiplePatterns ∧
    validate_message (.pstr "{:s}") = .error .unsupportedType ∧
    validate_message (.pstr "{:5.5d}") = .error .precisionOnNonFloat ∧
    validate_message (.pstr (compose_pattern (some 'f') (some 5) (some 2))) = .ok true := by
  refine ⟨C5_validate_taxonomy.1.1, ?_, ?_, ?_, ?_, ?_⟩
  · exact C5_validate_taxonomy.2.1 "no pattern" rfl
  · exact C5_validate_taxonomy.2.2.1 "Two patterns {:5.2f} {:6.3f}"
      (":5.2f".toList) (":6.3f".toList) [] rfl
  · exact C5_validate_taxonomy.2.2.2.1 "{:s}" (":s".toList) 's' none none rfl rfl
      (by decide) (by decide)
  · exact C5_validate_taxonomy.2.2.2.2.1 "{:5.5d}" (":5.5d".toList) (some 5) 5 rfl rfl
  · exact C5_validate_taxonomy.2.2.2.2.2.1 'f' (some 5) (some 2) (Or.inr rfl)
      (fun _ => rfl)

/-- **C1**: every `format` call leaves each stored width unchanged or larger
(whatever the call's outcome); each composed element's rendered width equals
the field's stored width after the call; consequently the rendered width of a
field is non-decreasing over a sequence of `format` calls on the same
threaded state, even when later values are shorter. -/
theorem C1_width_ratchet :
    (∀ (w : Iterwriter) (kw : List (String × Iterwriter.Value)) (k : String) (p : Nat),
      dget w.pad_lengths k = some p →
      ∃ p', dget (Iterwriter.format w kw).1.pad_lengths k = some p' ∧ p ≤ p') ∧
    (∀ (w : Iterwriter) (kw : List (String × Iterwriter.Value)) (w' : Iterwriter)
        (c : List (String × String)) (e : Option ErrKind) (k : String) (s : String),
      Iterwriter.formatLoop w kw = (w', c, e) → dget c k = some s →
      dget w'.pad_lengths k = some s.length) ∧
    (∀ (w0 : Iterwriter) (kw1 kw2 : List (String × Iterwriter.Value)) (w1 w2 : Iterwriter)
        (c1 c2 : List (String × String)) (e1 e2 : Option ErrKind) (k : String)
        (s1 s2 : String),
      Iterwriter.formatLoop w0 kw1 = (w1, c1, e1) →
      Iterwriter.formatLoop w1 kw2 = (w2, c2, e2) →
      dget c1 k = some s1 → dget c2 k = some s2 →
      s1.length ≤ s2.length) := by
  have hlen : ∀ (w : Iterwriter) (kw : List (String × Iterwriter.Value)) (w' : Iterwriter)
      (c : List (String × String)) (e : Option ErrKind) (k : String) (s : String),
      Iterwriter.formatLoop w kw = (w', c, e) → dget c k = some s →
      dget w'.pad_lengths k = some s.length := by
    intro w kw w' c e k s hl hk
    exact Iterwriter.formatLoopAux_composed_len (fun k s h => by cases h) hl k s hk
  refine ⟨?_, hlen, ?_⟩
  · intro w kw k p hk
    rw [Iterwriter.format_fst]
    rcases hl : Iterwriter.formatLoop w kw with ⟨w', c, e⟩
    exact Iterwriter.formatLoopAux_pads_mono hl k p hk
  · intro w0 kw1 kw2 w1 w2 c1 c2 e1 e2 k s1 s2 hl1 hl2 hk1 hk2
    have h1 : dget w1.pad_lengths k = some s1.length := hlen _ _ _ _ _ _ _ hl1 hk1
    have h2 : dget w2.pad_lengths k = some s2.length := hlen _ _ _ _ _ _ _ hl2 hk2
    obtain ⟨p', hp', hle⟩ := Iterwriter.formatLoopAux_pads_mono hl2 k s1.length h1
    have hps : p' = s2.length := Option.some.inj ((hp'.symm).trans h2)
    exact hps ▸ hle

/-- Witness for C1: field `a` starts with width 0, a call with `123` grows it,
and a later call with the shorter `7` still renders at width 3. -/
theorem C1_width_witness :
    (∃ p', dget (Iterwriter.format sampleW [("a", .vint 123)]).1.pad_lengths "a" =
      some p' ∧ 0 ≤ p') ∧
    dget { sampleW with pad_lengths := [("a", 3)] }.pad_lengths "a" =
      some ("123" : String).length ∧
    ("123" : String).length ≤ ("  7" : String).length := by
  refine ⟨C1_width_ratchet.1 sampleW [("a", .vint 123)] "a" 0 rfl, ?_, ?_⟩
  · exact C1_width_ratchet.2.1 sampleW [("a", .vint 123)]
      { sampleW with pad_lengths := [("a", 3)] } [("a", "123")] none "a" "123" rfl rfl
  · exact C1_width_ratchet.2.2 sampleW [("a", .vint 123)] [("a", .vint 7)]
      { sampleW with pad_lengths := [("a", 3)] }
      { sampleW with pad_lengths := [("a", 3)] }
      [("a", "123")] [("a", "  7")] none none "a" "123" "  7" rfl rfl rfl rfl

/-- **C3**: a `format` call whose render loop completes but whose supplied
names form a strict subset of the registered names fails with
`MissingFields` (a `ValueError`), naming exactly the registered names that
were not supplied; a call supplying every registered name never fails with
that kind. -/
theorem C3_missing_fields :
    (∀ (w : Iterwriter) (kw : List (String × Iterwriter.Value)) (w' : Iterwriter)
        (c : List (String × String)),
      Iterwriter.formatLoop w kw = (w', c, none) →
      (∀ n ∈ kw.map Prod.fst, n ∈ w.names) →
      (∃ n ∈ w.names, n ∉ kw.map Prod.fst) →
      ∃ m, Iterwriter.format w kw = (w', .error (.missingFields m)) ∧
        errClass (.missingFields m) = .valueError ∧
        ∀ n, n ∈ m ↔ (n ∈ w.names ∧ n ∉ kw.map Prod.fst)) ∧
    (∀ (w : Iterwriter) (kw : List (String × Iterwriter.Value)) (w' : Iterwriter)
        (c : List (String × String)),
      Iterwriter.formatLoop w kw = (w', c, none) →
      (∀ n ∈ w.names, n ∈ kw.map Prod.fst) →
      ∀ m, (Iterwriter.format w kw).2 ≠ .error (.missingFields m)) := by
  constructor
  · intro w kw w' c hl hsub hstrict
    have hnames : w'.names = w.names := (Iterwriter.formatLoopAux_skeleton hl).2.1
    have hck : ∀ k, (dget c k).isSome = true ↔ k ∈ kw.map Prod.fst := by
      intro k
      have := Iterwriter.formatLoopAux_keys hl k
      simpa [dget] using this
    obtain ⟨n0, hn0, hn0k⟩ := hstrict
    have hmiss : w'.names.any (fun n => (dget c n).isNone) = true := by
      refine List.any_eq_true.mpr ⟨n0, hnames ▸ hn0, ?_⟩
      rw [Option.isNone_iff_eq_none]
      cases hg : dget c n0 with
      | none => rfl
      | some s => exact absurd ((hck n0).mp (by rw [hg]; rfl)) hn0k
    refine ⟨w'.names.filter (fun n => (dget c n).isNone), ?_, rfl, ?_⟩
    · unfold Iterwriter.format
      rw [show Iterwriter.formatLoop w kw = (w', c, none) from hl]
      simp only []
      rw [if_pos hmiss]
    · intro n
      rw [List.mem_filter, hnames]
      constructor
      · rintro ⟨h1, h2⟩
        refine ⟨h1, fun hmem => ?_⟩
        have := (hck n).mpr hmem
        rw [Option.isNone_iff_eq_none] at h2
        rw [h2] at this
        cases this
      · rintro ⟨h1, h2⟩
        refine ⟨h1, ?_⟩
        rw [Option.isNone_iff_eq_none]
        cases hg : dget c n with
        | none => rfl
        | some s => exact absurd ((hck n).mp (by rw [hg]; rfl)) h2
  · intro w kw w' c hl hall m heq
    have hnames : w'.names = w.names := (Iterwriter.formatLoopAux_skeleton hl).2.1
    have hck : ∀ k, (dget c k).isSome = true ↔ k ∈ kw.map Prod.fst := by
      intro k
      have := Iterwriter.formatLoopAux_keys hl k
      simpa [dget] using this
    have hmiss : w'.names.any (fun n => (dget c n).isNone) = false := by
      rw [List.any_eq_false]
      intro n hn
      have hsome := (hck n).mpr (hall n (hnames ▸ hn))
      obtain ⟨a, ha⟩ := Option.isSome_iff_exists.mp hsome
      simp [ha]
    unfold Iterwriter.format at heq
    rw [show Iterwriter.formatLoop w kw = (w', c, none) from hl] at heq
    simp only [] at heq
    rw [if_neg (by rw [hmiss]; exact Bool.false_ne_true)] at heq
    cases hr : Iterwriter.renderAll w'.messages c w'.names with
    | error e =>
      rw [hr] at heq
      simp only [] at heq
      rcases Iterwriter.renderAll_error_kind hr with hk | ⟨n, hk⟩ <;>
        · rw [hk] at heq
          cases Except.error.inj heq
    | ok parts =>
      rw [hr] at heq
      simp only [] at heq
      cases heq

/-- Witness for C3: with fields `a`, `b`, supplying only `a` fails naming
exactly `b`; supplying both is not rejected as missing. -/
theorem C3_missing_witness :
    (∃ m, Iterwriter.format sampleAB [("a", .vint 5)] =
      ({ sampleAB with pad_lengths := [("a", 1), ("b", 0)] },
        .error (.missingFields m)) ∧
      errClass (.missingFields m) = .valueError ∧
      ∀ n, n ∈ m ↔ (n ∈ sampleAB.names ∧
        n ∉ ([("a", Iterwriter.Value.vint 5)].map Prod.fst))) ∧
    ((Iterwriter.format sampleAB [("a", .vint 5), ("b", .vint 6)]).2 ≠
      .error (.missingFields ["b"])) := by
  constructor
  · exact C3_missing_fields.1 sampleAB [("a", .vint 5)]
      { sampleAB with pad_lengths := [("a", 1), ("b", 0)] } [("a", "5")] rfl
      (by decide) ⟨"b", by decide, by decide⟩
  · exact C3_missing_fields.2 sampleAB [("a", .vint 5), ("b", .vint 6)]
      { sampleAB with pad_lengths := [("a", 1), ("b", 1)] } [("a", "5"), ("b", "6")]
      rfl (by decide) ["b"]

/-- **C4** counterexample: `sampleW` registers only `a`; supplying `a` plus
the unknown `b` does not succeed — the loop raises `KeyError` on `b`. -/
theorem C4_extra_names_counterexample :
    (∀ n ∈ sampleW.names, n ∈ (["a", "b"] : List String)) ∧
    "b" ∉ sampleW.names ∧
    (Iterwriter.format sampleW [("a", .vint 1), ("b", .vint 2)]).2 =
      .error (.keyError "b") :=
  ⟨by decide, by decide, rfl⟩

/-- **C4** amended: a `format` call supplying renderable values for
registered names followed by a value for an unregistered name fails with a
`KeyError` on that name (extra unknown names are not ignored). -/
theorem C4_extra_names_keyError
    (w : Iterwriter) (kwOK : List (String × Iterwriter.Value)) (n : String)
    (v : Iterwriter.Value) (rest : List (String × Iterwriter.Value))
    (w' : Iterwriter) (c : List (String × String))
    (hloop : Iterwriter.formatLoop w kwOK = (w', c, none))
    (hb : dget w.bases n = none) :
    (Iterwriter.format w (kwOK ++ (n, v) :: rest)).2 = .error (.keyError n) := by
  have hb' : dget w'.bases n = none := by
    rw [(Iterwriter.formatLoopAux_skeleton hloop).2.2.2.1]
    exact hb
  have hstep : Iterwriter.formatStep w' c n v = .error (.keyError n) :=
    Iterwriter.formatStep_keyError hb' c v
  have honestep : Iterwriter.formatLoopAux w' c ((n, v) :: rest) =
      (match Iterwriter.formatStep w' c n v with
        | .error e => (w', c, some e)
        | .ok (w1, c1) => Iterwriter.formatLoopAux w1 c1 rest) := rfl
  have hloop2 : Iterwriter.formatLoop w (kwOK ++ (n, v) :: rest) =
      (w', c, some (.keyError n)) := by
    show Iterwriter.formatLoopAux w [] (kwOK ++ (n, v) :: rest) = _
    rw [Iterwriter.formatLoopAux_append,
      show Iterwriter.formatLoopAux w [] kwOK = (w', c, none) from hloop]
    simp only []
    rw [honestep, hstep]
  unfold Iterwriter.format
  rw [hloop2]

/-- Witness for the amended C4 at a concrete call. -/
theorem C4_extra_names_witness :
    (Iterwriter.format sampleW [("a", .vint 1), ("b", .vint 2)]).2 =
      .error (.keyError "b") :=
  C4_extra_names_keyError sampleW [("a", .vint 1)] "b" (.vint 2) []
    { sampleW with pad_lengths := [("a", 1)] } [("a", "1")] rfl rfl

/-- **C7**: a failed `add_message` leaves the state unchanged (validation
precedes every mutation), while a `format` call always keeps the loop's
mutations, so a `MissingFields` failure can leave a grown width behind — as
the concrete run shows (`a`'s width grows 0 → 6 although the call fails). -/
theorem C7_failure_state :
    (∀ (w : Iterwriter) (n m : String),
      (Iterwriter.add_message w n m).2.isSome →
        (Iterwriter.add_message w n m).1 = w) ∧
    (∀ (w : Iterwriter) (kw : List (String × Iterwriter.Value)) (e : ErrKind),
      (Iterwriter.format w kw).2 = .error e →
      (Iterwriter.format w kw).1 = (Iterwriter.formatLoop w kw).1) ∧
    (Iterwriter.format sampleAB [("a", .vint 123456)] =
      ({ sampleAB with pad_lengths := [("a", 6), ("b", 0)] },
        .error (.missingFields ["b"])) ∧
      dget sampleAB.pad_lengths "a" = some 0) := by
  refine ⟨?_, ?_, rfl, rfl⟩
  · intro w n m h
    unfold Iterwriter.add_message at h ⊢
    cases hv : validate_message (.pstr m) with
    | error e => rfl
    | ok b =>
      rw [hv] at h
      simp only at h ⊢
      cases hp : findall m.toList with
      | nil => rfl
      | cons p rest =>
        rw [hp] at h
        simp only at h ⊢
        cases hd : decompose_pattern p with
        | error e => rfl
        | ok triple =>
          obtain ⟨base, pl, dec⟩ := triple
          rw [hd] at h
          simp at h
  · intro w kw e _
    exact Iterwriter.format_fst w kw

/-- Witness for C7 at concrete inputs. -/
theorem C7_failure_witness :
    (Iterwriter.add_message sampleAB "x" "{}").1 = sampleAB ∧
    (Iterwriter.format sampleAB [("a", .vint 123456)]).1 =
      (Iterwriter.formatLoop sampleAB [("a", .vint 123456)]).1 :=
  ⟨C7_failure_state.1 sampleAB "x" "{}" rfl,
   C7_failure_state.2.1 sampleAB [("a", .vint 123456)] (.missingFields ["b"]) rfl⟩

/-- **C6**: a successful `format` call's output is the per-field rendered
templates joined in registration order (`names`) with the separator, and the
output does not depend on the order in which the (distinct) names appear in
the supplied values. -/
theorem C6_join_order :
    (∀ (w : Iterwriter) (kw : List (String × Iterwriter.Value)) (w' : Iterwriter)
        (out : String),
      Iterwriter.format w kw = (w', .ok out) →
      ∃ c parts, Iterwriter.formatLoop w kw = (w', c, none) ∧
        Iterwriter.renderAll w.messages c w.names = .ok parts ∧
        out = String.intercalate w.sep parts) ∧
    (∀ (w : Iterwriter) (kw1 kw2 : List (String × Iterwriter.Value))
        (w1 : Iterwriter) (c1 : List (String × String)),
      Iterwriter.formatLoop w kw1 = (w1, c1, none) →
      kw1.Perm kw2 → (kw1.map Prod.fst).Nodup →
      (Iterwriter.format w kw1).2 = (Iterwriter.format w kw2).2) := by
  constructor
  · intro w kw w' out h
    unfold Iterwriter.format at h
    rcases hl : Iterwriter.formatLoop w kw with ⟨w'', c, e⟩
    rw [hl] at h
    cases e with
    | some e' =>
      simp only at h
      exact Except.noConfusion (congrArg Prod.snd h)
    | none =>
      simp only at h
      have hsk := Iterwriter.formatLoopAux_skeleton hl
      by_cases hmiss : w''.names.any (fun n => (dget c n).isNone)
      · rw [if_pos hmiss] at h
        exact Except.noConfusion (congrArg Prod.snd h)
      · rw [if_neg hmiss] at h
        cases hr : Iterwriter.renderAll w''.messages c w''.names with
        | error e2 =>
          rw [hr] at h
          simp only at h
          exact Except.noConfusion (congrArg Prod.snd h)
        | ok parts =>
          rw [hr] at h
          simp only at h
          have hw : w'' = w' := congrArg Prod.fst h
          have hout : out = String.intercalate w''.sep parts :=
            (Except.ok.inj (congrArg Prod.snd h)).symm
          refine ⟨c, parts, ?_, ?_, ?_⟩
          · rw [← hw]
          · rw [← hsk.2.2.1, ← hsk.2.1]
            exact hr
          · rw [hout, hsk.1]
  · intro w kw1 kw2 w1 c1 hl1 hperm hnd1
    have hnd2 : (kw2.map Prod.fst).Nodup := ((hperm.map Prod.fst).nodup_iff).mp hnd1
    have hsucc1 : (Iterwriter.formatLoopAux w [] kw1).2.2 = none := by
      rw [show Iterwriter.formatLoopAux w [] kw1 = (w1, c1, none) from hl1]
    have hcan : ∀ p ∈ kw2, Iterwriter.canStep w p.1 p.2 := fun p hp =>
      (Iterwriter.formatLoopAux_err_none_iff.mp hsucc1) p (hperm.mem_iff.mpr hp)
    have hsucc2 : (Iterwriter.formatLoopAux w [] kw2).2.2 = none :=
      Iterwriter.formatLoopAux_err_none_iff.mpr hcan
    rcases hl2 : Iterwriter.formatLoop w kw2 with ⟨w2, c2, e2⟩
    have he2 : e2 = none := by
      have heq : (Iterwriter.formatLoopAux w [] kw2).2.2 = e2 := by
        rw [show Iterwriter.formatLoopAux w [] kw2 = (w2, c2, e2) from hl2]
      rw [← heq, hsucc2]
    subst he2
    obtain ⟨notmem1, mem1⟩ := Iterwriter.formatLoopAux_char hnd1 hl1
    obtain ⟨notmem2, mem2⟩ := Iterwriter.formatLoopAux_char hnd2 hl2
    have hcc : ∀ k, dget c1 k = dget c2 k := by
      intro k
      by_cases hk : k ∈ kw1.map Prod.fst
      · obtain ⟨p, hp, hpk⟩ := List.mem_map.mp hk
        have hp1 : (k, p.2) ∈ kw1 := by rw [← hpk]; simpa using hp
        have hp2 : (k, p.2) ∈ kw2 := hperm.mem_iff.mp hp1
        obtain ⟨b1, pd1, d1, r1, g1b, g1p, g1d, g1r, g1pp, g1c⟩ := mem1 k p.2 hp1
        obtain ⟨b2, pd2, d2, r2, g2b, g2p, g2d, g2r, g2pp, g2c⟩ := mem2 k p.2 hp2
        have hb : b1 = b2 := Option.some.inj (g1b.symm.trans g2b)
        have hpd : pd1 = pd2 := Option.some.inj (g1p.symm.trans g2p)
        have hd : d1 = d2 := Option.some.inj (g1d.symm.trans g2d)
        have hr : r1 = r2 := by
          refine Option.some.inj (g1r.symm.trans ?_)
          rw [hb, hd]
          exact g2r
        rw [g1c, g2c, hpd, hr]
      · have hk2 : k ∉ kw2.map Prod.fst := fun h2 => hk ((hperm.map Prod.fst).mem_iff.mpr h2)
        rw [(notmem1 k hk).1, (notmem2 k hk2).1]
    have hsk1 := Iterwriter.formatLoopAux_skeleton hl1
    have hsk2 := Iterwriter.formatLoopAux_skeleton hl2
    have hnm : w2.names = w1.names := by rw [hsk1.2.1, hsk2.2.1]
    have hms : w2.messages = w1.messages := by rw [hsk1.2.2.1, hsk2.2.2.1]
    have hsp : w2.sep = w1.sep := by rw [hsk1.1, hsk2.1]
    have hfun : (fun n => (dget c2 n).isNone) = (fun n => (dget c1 n).isNone) :=
      funext fun n => by rw [hcc n]
    unfold Iterwriter.format
    rw [show Iterwriter.formatLoop w kw1 = (w1, c1, none) from hl1, hl2]
    simp only []
    by_cases hmiss : w1.names.any (fun n => (dget c1 n).isNone)
    · have hmiss2 : w2.names.any (fun n => (dget c2 n).isNone) = true := by
        rw [hnm, hfun]
        exact hmiss
      rw [if_pos hmiss, if_pos hmiss2]
      show Except.error (ErrKind.missingFields _) = Except.error (ErrKind.missingFields _)
      rw [hnm, hfun]
    · have hmiss2 : ¬w2.names.any (fun n => (dget c2 n).isNone) = true := by
        rw [hnm, hfun]
        exact hmiss
      rw [if_neg hmiss, if_neg hmiss2]
      have hra : Iterwriter.renderAll w2.messages c2 w2.names =
          Iterwriter.renderAll w1.messages c1 w1.names := by
        rw [hnm, hms, Iterwriter.renderAll_congr (fun k => (hcc k).symm) w1.names]
      rw [hra]
      cases hr : Iterwriter.renderAll w1.messages c1 w1.names with
      | error e => rfl
      | ok parts =>
        simp only []
        rw [hsp]

/-- Witness for C6 at a concrete two-field call in both argument orders. -/
theorem C6_join_witness :
    (∃ c parts,
      Iterwriter.formatLoop sampleAB [("a", .vint 1), ("b", .vint 2)] =
        ({ sampleAB with pad_lengths := [("a", 1), ("b", 1)] }, c, none) ∧
      Iterwriter.renderAll sampleAB.messages c sampleAB.names = .ok parts ∧
      "a=1 | b=2" = String.intercalate sampleAB.sep parts) ∧
    (Iterwriter.format sampleAB [("a", .vint 1), ("b", .vint 2)]).2 =
      (Iterwriter.format sampleAB [("b", .vint 2), ("a", .vint 1)]).2 := by
  constructor
  · exact C6_join_order.1 sampleAB [("a", .vint 1), ("b", .vint 2)]
      { sampleAB with pad_lengths := [("a", 1), ("b", 1)] } "a=1 | b=2" rfl
  · exact C6_join_order.2 sampleAB [("a", .vint 1), ("b", .vint 2)]
      [("b", .vint 2), ("a", .vint 1)]
      { sampleAB with pad_lengths := [("a", 1), ("b", 1)] } [("a", "1"), ("b", "2")]
      rfl (by decide) (by decide)

end Iterwrite
